import Mathlib

/-!
Verification development for the go-grpc-kit service-discovery core:
the Registry backends (etcd lease-store, consul catalog), the
ServiceManager bookkeeping layer, the discovery resolver and the
ClientFactory connection cache.  Go code is shallowly embedded as pure
Lean functions; mutable state (the etcd key/value store, the connection
map of the factory, the global resolver-scheme map) is passed explicitly.
-/

namespace GrpcKit

/-- ServiceInfo from pkg/discovery/etcd.go: one running instance of a
logical service.  Metadata is a string-to-string map; we keep it as an
association list since no claim depends on map semantics. -/
structure ServiceInfo where
  name : String
  address : String
  port : Nat
  metadata : List (String × String) := []
deriving DecidableEq, Repr

/-- Decimal digit character, as produced by Go fmt %d. -/
def digitChar (d : Nat) : Char := Char.ofNat (48 + d)

/-- Little-endian decimal digits of n, fuel-bounded so that the kernel
can evaluate it (fuel n+1 always suffices because n/10 < n). -/
def decDigitsRevFuel : Nat → Nat → List Char
  | 0, _ => []
  | fuel + 1, n =>
    if n < 10 then [digitChar n]
    else digitChar (n % 10) :: decDigitsRevFuel fuel (n / 10)

/-- Little-endian decimal digits of n. -/
def decCharsRev (n : Nat) : List Char := decDigitsRevFuel (n + 1) n

/-- Decimal rendering of a natural number as a character list (Go fmt %d
for a non-negative int). -/
def decChars (n : Nat) : List Char := (decCharsRev n).reverse

/-- Decimal rendering of a natural number as a string (Go fmt %d). -/
def decStr (n : Nat) : String := ⟨decChars n⟩

theorem decDigitsRevFuel_stable :
    ∀ f g n, n < f → n < g → decDigitsRevFuel f n = decDigitsRevFuel g n := by
  intro f
  induction f with
  | zero => intro g n hf; omega
  | succ f ih =>
    intro g n hf hg
    match g, hg with
    | g + 1, hg =>
      show decDigitsRevFuel (f + 1) n = decDigitsRevFuel (g + 1) n
      by_cases h10 : n < 10
      · simp [decDigitsRevFuel, h10]
      · have hdiv : n / 10 < n := Nat.div_lt_self (by omega) (by omega)
        simp only [decDigitsRevFuel, if_neg h10]
        exact congrArg _ (ih g (n / 10) (by omega) (by omega))

/-- Unfolding equation for decCharsRev. -/
theorem decCharsRev_step (n : Nat) :
    decCharsRev n =
      if n < 10 then [digitChar n]
      else digitChar (n % 10) :: decCharsRev (n / 10) := by
  by_cases h10 : n < 10
  · simp [decCharsRev, decDigitsRevFuel, h10]
  · have hdiv : n / 10 < n := Nat.div_lt_self (by omega) (by omega)
    simp only [decCharsRev, decDigitsRevFuel, if_neg h10]
    exact congrArg _ (decDigitsRevFuel_stable n (n / 10 + 1) (n / 10) hdiv (Nat.lt_succ_self _))

theorem decCharsRev_ne_nil (n : Nat) : decCharsRev n ≠ [] := by
  rw [decCharsRev_step]
  by_cases h : n < 10 <;> simp [h]

theorem digitChar_inj : ∀ d₁ < 10, ∀ d₂ < 10, digitChar d₁ = digitChar d₂ → d₁ = d₂ := by
  decide

theorem mem_decCharsRev (n : Nat) : ∀ c ∈ decCharsRev n, ∃ d, d < 10 ∧ c = digitChar d := by
  induction n using Nat.strong_induction_on with
  | _ n ih =>
    intro c hc
    rw [decCharsRev_step] at hc
    by_cases h10 : n < 10
    · rw [if_pos h10] at hc
      rcases List.mem_cons.mp hc with h | h
      · exact ⟨n, h10, h⟩
      · exact absurd h (List.not_mem_nil c)
    · rw [if_neg h10] at hc
      rcases List.mem_cons.mp hc with h | h
      · exact ⟨n % 10, Nat.mod_lt _ (by omega), h⟩
      · exact ih (n / 10) (Nat.div_lt_self (by omega) (by omega)) c h

theorem decCharsRev_inj : ∀ m n, decCharsRev m = decCharsRev n → m = n := by
  intro m
  induction m using Nat.strong_induction_on with
  | _ m ih =>
    intro n h
    rw [decCharsRev_step m, decCharsRev_step n] at h
    by_cases hm : m < 10 <;> by_cases hn : n < 10
    · rw [if_pos hm, if_pos hn] at h
      simp only [List.cons.injEq, and_true] at h
      exact digitChar_inj m hm n hn h
    · rw [if_pos hm, if_neg hn] at h
      simp only [List.cons.injEq] at h
      exact absurd h.2.symm (decCharsRev_ne_nil (n / 10))
    · rw [if_neg hm, if_pos hn] at h
      simp only [List.cons.injEq] at h
      exact absurd h.2 (decCharsRev_ne_nil (m / 10))
    · rw [if_neg hm, if_neg hn] at h
      simp only [List.cons.injEq] at h
      have hmod : m % 10 = n % 10 :=
        digitChar_inj _ (Nat.mod_lt _ (by omega)) _ (Nat.mod_lt _ (by omega)) h.1
      have hdivlt : m / 10 < m := Nat.div_lt_self (by omega) (by omega)
      have hdiv : m / 10 = n / 10 := ih (m / 10) hdivlt (n / 10) h.2
      omega

theorem decChars_inj : ∀ m n, decChars m = decChars n → m = n := by
  intro m n h
  exact decCharsRev_inj m n (List.reverse_injective h)

theorem mem_decChars (n : Nat) : ∀ c ∈ decChars n, ∃ d, d < 10 ∧ c = digitChar d := by
  intro c hc
  exact mem_decCharsRev n c (List.mem_reverse.mp hc)

theorem slash_not_mem_decChars (n : Nat) : '/' ∉ decChars n := by
  intro h
  obtain ⟨d, hd, hc⟩ := mem_decChars n '/' h
  revert hc
  revert hd
  revert d
  decide

theorem colon_not_mem_decChars (n : Nat) : ':' ∉ decChars n := by
  intro h
  obtain ⟨d, hd, hc⟩ := mem_decChars n ':' h
  revert hc
  revert hd
  revert d
  decide

/-- Association-list map lookup, modelling a Go map read. -/
def mapLookup {α : Type} (m : List (String × α)) (k : String) : Option α :=
  match m with
  | [] => none
  | (k', v) :: rest => if k' = k then some v else mapLookup rest k

/-- Association-list map update, modelling a Go map assignment
(overwrites any previous binding for the key). -/
def mapInsert {α : Type} (m : List (String × α)) (k : String) (v : α) : List (String × α) :=
  (k, v) :: m.filter (fun kv => ¬ kv.1 = k)

/-- Association-list map deletion, modelling Go delete(m, k). -/
def mapErase {α : Type} (m : List (String × α)) (k : String) : List (String × α) :=
  m.filter (fun kv => ¬ kv.1 = k)

theorem mapLookup_insert {α : Type} (m : List (String × α)) (k : String) (v : α) :
    mapLookup (mapInsert m k v) k = some v := by
  simp [mapInsert, mapLookup]

theorem mapLookup_filter_ne {α : Type} (m : List (String × α)) (k k' : String)
    (h : k ≠ k') : mapLookup (m.filter (fun kv => ¬ kv.1 = k)) k' = mapLookup m k' := by
  induction m with
  | nil => rfl
  | cons kv rest ih =>
    obtain ⟨k0, v0⟩ := kv
    simp only [decide_not] at ih
    by_cases hk : k0 = k
    · have hk' : ¬ (k0 = k') := by rw [hk]; exact h
      simp [mapLookup, List.filter_cons, hk, hk', h, ih]
    · by_cases hk' : k0 = k'
      · simp [mapLookup, List.filter_cons, hk, hk', Ne.symm h]
      · simp [mapLookup, List.filter_cons, hk, hk', ih]

theorem mapLookup_insert_ne {α : Type} (m : List (String × α)) (k k' : String) (v : α)
    (h : k ≠ k') : mapLookup (mapInsert m k v) k' = mapLookup m k' := by
  simp only [mapInsert, mapLookup, if_neg h]
  exact mapLookup_filter_ne m k k' h

/-- Split a character list at every '/' (the segment decomposition that
Go path.Clean works through).  An empty input yields one empty segment. -/
def splitSlash : List Char → List (List Char)
  | [] => [[]]
  | c :: cs =>
    if c = '/' then [] :: splitSlash cs
    else
      match splitSlash cs with
      | [] => [[c]]
      | s :: rest => (c :: s) :: rest

/-- One step of the element processing of Go path.Clean: empty and "."
segments are dropped; ".." pops the previous segment (or accumulates at
the start of a relative path, or is dropped at the root of a rooted
path); any other segment is kept.  The stack holds the kept segments in
reverse order. -/
def cleanStep (rooted : Bool) (stack : List (List Char)) (seg : List Char) : List (List Char) :=
  if seg = [] ∨ seg = ['.'] then stack
  else if seg = ['.', '.'] then
    match stack with
    | [] => if rooted then [] else [['.', '.']]
    | top :: rest => if top = ['.', '.'] then seg :: stack else rest
  else seg :: stack

/-- Process all segments of a path through cleanStep. -/
def cleanSegs (rooted : Bool) (segs : List (List Char)) : List (List Char) :=
  (segs.foldl (cleanStep rooted) []).reverse

/-- Join segments with '/' separators. -/
def intercalateSlash : List (List Char) → List Char
  | [] => []
  | [s] => s
  | s :: rest => s ++ '/' :: intercalateSlash rest

/-- Go path.Clean: lexical simplification of a slash-separated path
(collapse multiple slashes, drop "." elements, resolve ".." elements,
drop trailing slashes; empty result becomes "." or "/"). -/
def goClean (s : List Char) : List Char :=
  if s = [] then ['.']
  else if s.head? = some '/' then
    if cleanSegs true (splitSlash s) = [] then ['/']
    else '/' :: intercalateSlash (cleanSegs true (splitSlash s))
  else
    if cleanSegs false (splitSlash s) = [] then ['.']
    else intercalateSlash (cleanSegs false (splitSlash s))

/-- Go path.Join: concatenate the non-empty elements with '/' and Clean
the result; all-empty input yields the empty string. -/
def goJoin (elems : List (List Char)) : List Char :=
  if elems.filter (fun e => ¬ e = []) = [] then []
  else goClean (intercalateSlash (elems.filter (fun e => ¬ e = [])))

/-- EtcdRegistry from pkg/discovery/etcd.go.  The etcd client handle and
logger are not modelled; nspace is the Go field named namespace (a Lean
keyword), ttl is fixed to 30 by NewEtcdRegistry, and leaseID is the
single stored lease identifier (Go zero value 0 meaning none granted
yet). -/
structure EtcdRegistry where
  nspace : String
  ttl : Nat := 30
  leaseID : Nat := 0
deriving DecidableEq, Repr

/-- buildServiceKey from pkg/discovery/etcd.go:
path.Join(namespace, "services", serviceName, fmt.Sprintf("%s:%d", address, port)). -/
def EtcdRegistry.buildServiceKey (r : EtcdRegistry) (serviceName address : String) (port : Nat) : String :=
  ⟨goJoin [r.nspace.data, "services".data, serviceName.data, address.data ++ ':' :: decChars port]⟩

/-- buildServicePrefix from pkg/discovery/etcd.go:
path.Join(namespace, "services", serviceName) + "/". -/
def EtcdRegistry.buildServicePfx (r : EtcdRegistry) (serviceName : String) : String :=
  ⟨goJoin [r.nspace.data, "services".data, serviceName.data] ++ ['/']⟩

/-- A path element that Go path.Clean passes through unchanged:
nonempty, slash-free and not a dot element. -/
def plainSeg (s : List Char) : Prop :=
  s ≠ [] ∧ '/' ∉ s ∧ s ≠ ['.'] ∧ s ≠ ['.', '.']

instance (s : List Char) : Decidable (plainSeg s) := by
  unfold plainSeg; infer_instance

theorem splitSlash_no_slash (s : List Char) (h : '/' ∉ s) : splitSlash s = [s] := by
  induction s with
  | nil => rfl
  | cons c cs ih =>
    have hc : ¬ c = '/' := fun hcc => h (hcc ▸ List.mem_cons_self c cs)
    have hcs : '/' ∉ cs := fun hm => h (List.mem_cons_of_mem c hm)
    simp [splitSlash, hc, ih hcs]

theorem splitSlash_append (s t : List Char) (h : '/' ∉ s) :
    splitSlash (s ++ '/' :: t) = s :: splitSlash t := by
  induction s with
  | nil => simp [splitSlash]
  | cons c cs ih =>
    have hc : ¬ c = '/' := fun hcc => h (hcc ▸ List.mem_cons_self c cs)
    have hcs : '/' ∉ cs := fun hm => h (List.mem_cons_of_mem c hm)
    rw [List.cons_append]
    simp only [splitSlash, if_neg hc, ih hcs]

theorem cleanStep_plain (rooted : Bool) (stack : List (List Char)) (s : List Char)
    (h : plainSeg s) : cleanStep rooted stack s = s :: stack := by
  obtain ⟨h1, _, h3, h4⟩ := h
  have : ¬ (s = [] ∨ s = ['.']) := by
    intro hor; rcases hor with h | h
    · exact h1 h
    · exact h3 h
  simp [cleanStep, this, h4]

theorem foldl_cleanStep_plain (rooted : Bool) (segs : List (List Char))
    (h : ∀ s ∈ segs, plainSeg s) :
    ∀ acc, segs.foldl (cleanStep rooted) acc = segs.reverse ++ acc := by
  induction segs with
  | nil => intro acc; rfl
  | cons s rest ih =>
    intro acc
    rw [List.foldl_cons, cleanStep_plain rooted acc s (h s (List.mem_cons_self s rest))]
    rw [ih (fun x hx => h x (List.mem_cons_of_mem s hx)) (s :: acc)]
    simp

theorem cleanSegs_plain (rooted : Bool) (segs : List (List Char))
    (h : ∀ s ∈ segs, plainSeg s) : cleanSegs rooted segs = segs := by
  rw [cleanSegs, foldl_cleanStep_plain rooted segs h []]
  simp

theorem intercalateSlash_cons (s : List Char) (s2 : List Char) (rest : List (List Char)) :
    intercalateSlash (s :: s2 :: rest) = s ++ '/' :: intercalateSlash (s2 :: rest) := rfl

theorem splitSlash_intercalate (segs : List (List Char)) (hne : segs ≠ [])
    (h : ∀ s ∈ segs, '/' ∉ s) : splitSlash (intercalateSlash segs) = segs := by
  induction segs with
  | nil => exact absurd rfl hne
  | cons s rest ih =>
    match rest with
    | [] => exact splitSlash_no_slash s (h s (List.mem_cons_self s []))
    | s2 :: rest2 =>
      rw [intercalateSlash_cons,
        splitSlash_append _ _ (h s (List.mem_cons_self s _)),
        ih (by simp) (fun x hx => h x (List.mem_cons_of_mem s hx))]

theorem head?_intercalateSlash (s : List Char) (rest : List (List Char)) (h : s ≠ []) :
    (intercalateSlash (s :: rest)).head? = s.head? := by
  match s, h with
  | c :: cs, _ =>
    match rest with
    | [] => rfl
    | s2 :: rest2 => rw [intercalateSlash_cons]; rfl

theorem goClean_plain (segs : List (List Char)) (hne : segs ≠ [])
    (h : ∀ s ∈ segs, plainSeg s) : goClean (intercalateSlash segs) = intercalateSlash segs := by
  match segs, hne with
  | s :: rest, _ =>
    have hs : plainSeg s := h s (List.mem_cons_self s rest)
    have hhead : (intercalateSlash (s :: rest)).head? = s.head? :=
      head?_intercalateSlash s rest hs.1
    have hnonnil : intercalateSlash (s :: rest) ≠ [] := by
      intro hcontra
      rw [hcontra] at hhead
      match s, hs.1 with
      | c :: cs, _ => exact Option.noConfusion hhead
    have hnotroot : ¬ (intercalateSlash (s :: rest)).head? = some '/' := by
      rw [hhead]
      match s with
      | c :: cs =>
        intro hcontra
        have : c = '/' := Option.some.inj hcontra
        exact hs.2.1 (this ▸ List.mem_cons_self c cs)
    unfold goClean
    rw [if_neg hnonnil, if_neg hnotroot,
      splitSlash_intercalate _ (by simp) (fun x hx => (h x hx).2.1),
      cleanSegs_plain false _ h, if_neg (by simp)]

theorem goJoin_four_plain (a b c d : List Char)
    (ha : plainSeg a) (hb : plainSeg b) (hc : plainSeg c) (hd : plainSeg d) :
    goJoin [a, b, c, d] = a ++ '/' :: (b ++ '/' :: (c ++ '/' :: d)) := by
  have hfil : [a, b, c, d].filter (fun e => ¬ e = []) = [a, b, c, d] := by
    simp [List.filter_cons, ha.1, hb.1, hc.1, hd.1]
  have hall : ∀ s ∈ [a, b, c, d], plainSeg s := by
    intro s hs
    simp only [List.mem_cons, List.not_mem_nil, or_false] at hs
    rcases hs with h | h | h | h <;> subst h
    exacts [ha, hb, hc, hd]
  unfold goJoin
  rw [hfil, if_neg (by simp), goClean_plain [a, b, c, d] (by simp) hall]
  rfl

theorem goJoin_three_plain (a b c : List Char)
    (ha : plainSeg a) (hb : plainSeg b) (hc : plainSeg c) :
    goJoin [a, b, c] = a ++ '/' :: (b ++ '/' :: c) := by
  have hfil : [a, b, c].filter (fun e => ¬ e = []) = [a, b, c] := by
    simp [List.filter_cons, ha.1, hb.1, hc.1]
  have hall : ∀ s ∈ [a, b, c], plainSeg s := by
    intro s hs
    simp only [List.mem_cons, List.not_mem_nil, or_false] at hs
    rcases hs with h | h | h <;> subst h
    exacts [ha, hb, hc]
  unfold goJoin
  rw [hfil, if_neg (by simp), goClean_plain [a, b, c] (by simp) hall]
  rfl

theorem append_cons_inj {α : Type} (b : α) :
    ∀ (xs1 xs2 ys1 ys2 : List α), b ∉ xs1 → b ∉ xs2 →
      xs1 ++ b :: ys1 = xs2 ++ b :: ys2 → xs1 = xs2 ∧ ys1 = ys2 := by
  intro xs1
  induction xs1 with
  | nil =>
    intro xs2 ys1 ys2 h1 h2 heq
    match xs2 with
    | [] =>
      simp only [List.nil_append, List.cons.injEq] at heq
      exact ⟨rfl, heq.2⟩
    | x :: xs2' =>
      simp only [List.nil_append, List.cons_append, List.cons.injEq] at heq
      exact absurd (heq.1 ▸ List.mem_cons_self x (xs2' ++ b :: ys2)) (by
        intro hmem
        exact h2 (heq.1 ▸ List.mem_cons_self x xs2'))
  | cons x xs1' ih =>
    intro xs2 ys1 ys2 h1 h2 heq
    match xs2 with
    | [] =>
      simp only [List.cons_append, List.nil_append, List.cons.injEq] at heq
      exact absurd (heq.1.symm ▸ List.mem_cons_self x xs1') h1
    | y :: xs2' =>
      simp only [List.cons_append, List.cons.injEq] at heq
      obtain ⟨hxy, hrest⟩ := heq
      have h1' : b ∉ xs1' := fun hm => h1 (List.mem_cons_of_mem x hm)
      have h2' : b ∉ xs2' := fun hm => h2 (List.mem_cons_of_mem y hm)
      obtain ⟨hx, hy⟩ := ih xs2' ys1 ys2 h1' h2' hrest
      exact ⟨by rw [hxy, hx], hy⟩

theorem addrPort_plain (a : List Char) (p : Nat) (h : '/' ∉ a) :
    plainSeg (a ++ ':' :: decChars p) := by
  refine ⟨by simp, ?_, ?_, ?_⟩
  · intro hmem
    rcases List.mem_append.mp hmem with hm | hm
    · exact h hm
    · rcases List.mem_cons.mp hm with hm | hm
      · exact absurd hm (by decide)
      · exact slash_not_mem_decChars p hm
  · intro hcontra
    have hc : ':' ∈ a ++ ':' :: decChars p :=
      List.mem_append_right a (List.mem_cons_self ':' (decChars p))
    rw [hcontra] at hc
    revert hc
    decide
  · intro hcontra
    have hc : ':' ∈ a ++ ':' :: decChars p :=
      List.mem_append_right a (List.mem_cons_self ':' (decChars p))
    rw [hcontra] at hc
    revert hc
    decide

theorem buildServiceKey_data (r : EtcdRegistry) (n a : String) (p : Nat)
    (hns : plainSeg r.nspace.data) (hn : plainSeg n.data) (ha : '/' ∉ a.data) :
    (r.buildServiceKey n a p).data =
      r.nspace.data ++ '/' ::
        ("services".data ++ '/' :: (n.data ++ '/' :: (a.data ++ ':' :: decChars p))) := by
  show goJoin _ = _
  exact goJoin_four_plain _ _ _ _ hns (by decide) hn (addrPort_plain a.data p ha)

theorem buildServicePfx_data (r : EtcdRegistry) (n : String)
    (hns : plainSeg r.nspace.data) (hn : plainSeg n.data) :
    (r.buildServicePfx n).data =
      (r.nspace.data ++ '/' :: ("services".data ++ '/' :: n.data)) ++ ['/'] := by
  show goJoin _ ++ ['/'] = _
  rw [goJoin_three_plain _ _ _ hns (by decide) hn]

/-- C8 (amended): when the namespace, the service name and the address
are plain path segments (nonempty, slash-free, not "." or ".."), the
lease-store record key is exactly the namespace, "/services/", the name,
"/", and the address:port pair, the watch/list prefix is exactly the
namespace, "/services/", the name and a trailing "/", the prefix is a
proper prefix of every record key for that name, and keys for distinct
(name, address, port) tuples are distinct.  For other inputs the cleaning of Go
path.Join applies, e.g. an empty namespace yields no leading
slash. -/
theorem buildServiceKey_layout (r : EtcdRegistry) (hns : plainSeg r.nspace.data) :
    (∀ (n a : String) (p : Nat), plainSeg n.data → '/' ∉ a.data →
      r.buildServiceKey n a p =
          r.nspace ++ "/services/" ++ n ++ "/" ++ a ++ ":" ++ decStr p ∧
        r.buildServicePfx n = r.nspace ++ "/services/" ++ n ++ "/" ∧
        (r.buildServicePfx n).data <+: (r.buildServiceKey n a p).data ∧
        r.buildServicePfx n ≠ r.buildServiceKey n a p) ∧
    (∀ (n1 a1 : String) (p1 : Nat) (n2 a2 : String) (p2 : Nat),
      plainSeg n1.data → '/' ∉ a1.data → plainSeg n2.data → '/' ∉ a2.data →
      r.buildServiceKey n1 a1 p1 = r.buildServiceKey n2 a2 p2 →
      n1 = n2 ∧ a1 = a2 ∧ p1 = p2) := by
  have hsl : "/services/".data = '/' :: "services".data ++ ['/'] := rfl
  have hslash : "/".data = ['/'] := rfl
  have hcolon : ":".data = [':'] := rfl
  constructor
  · intro n a p hn ha
    have hkey := buildServiceKey_data r n a p hns hn ha
    have hpfx := buildServicePfx_data r n hns hn
    have hkp : (r.buildServiceKey n a p).data =
        (r.buildServicePfx n).data ++ (a.data ++ ':' :: decChars p) := by
      rw [hkey, hpfx]
      simp [List.append_assoc]
    refine ⟨?_, ?_, ?_, ?_⟩
    · apply String.ext
      rw [hkey]
      simp only [String.data_append, hsl, hslash, hcolon]
      rw [show (decStr p).data = decChars p from rfl]
      simp [List.append_assoc]
    · apply String.ext
      rw [hpfx]
      simp only [String.data_append, hsl, hslash]
      simp [List.append_assoc]
    · exact ⟨a.data ++ ':' :: decChars p, hkp.symm⟩
    · intro heq
      have hdata := congrArg String.data heq
      rw [hkp] at hdata
      have hlen := congrArg List.length hdata
      simp [List.length_append] at hlen
  · intro n1 a1 p1 n2 a2 p2 hn1 ha1 hn2 ha2 heq
    have h1 := buildServiceKey_data r n1 a1 p1 hns hn1 ha1
    have h2 := buildServiceKey_data r n2 a2 p2 hns hn2 ha2
    have hd : r.nspace.data ++ '/' ::
          ("services".data ++ '/' :: (n1.data ++ '/' :: (a1.data ++ ':' :: decChars p1))) =
        r.nspace.data ++ '/' ::
          ("services".data ++ '/' :: (n2.data ++ '/' :: (a2.data ++ ':' :: decChars p2))) := by
      rw [← h1, ← h2, heq]
    have hd2 := List.append_cancel_left hd
    simp only [List.cons.injEq, true_and] at hd2
    have hd3 := List.append_cancel_left hd2
    simp only [List.cons.injEq, true_and] at hd3
    obtain ⟨hneq, htail⟩ :=
      append_cons_inj '/' n1.data n2.data _ _ hn1.2.1 hn2.2.1 hd3
    have hrev := congrArg List.reverse htail
    simp only [List.reverse_append, List.reverse_cons, List.append_assoc,
      List.singleton_append, List.nil_append] at hrev
    have hc1 : ':' ∉ (decChars p1).reverse := fun hm =>
      colon_not_mem_decChars p1 (List.mem_reverse.mp hm)
    have hc2 : ':' ∉ (decChars p2).reverse := fun hm =>
      colon_not_mem_decChars p2 (List.mem_reverse.mp hm)
    obtain ⟨hdeq, haeq⟩ :=
      append_cons_inj ':' (decChars p1).reverse (decChars p2).reverse _ _ hc1 hc2 hrev
    refine ⟨String.ext hneq, String.ext (List.reverse_injective haeq), ?_⟩
    exact decChars_inj p1 p2 (List.reverse_injective hdeq)

/-- C8 counterexample: for the empty namespace the record key produced by
the code is "services/greeter/10.0.0.5:9090" (path.Join drops the empty
element), not the literal interpolation which would carry a leading
slash. -/
theorem buildServiceKey_empty_namespace :
    ({ nspace := "" } : EtcdRegistry).buildServiceKey "greeter" "10.0.0.5" 9090 ≠
      "" ++ "/services/" ++ "greeter" ++ "/" ++ "10.0.0.5" ++ ":" ++ decStr 9090 := by
  decide

/-- C8 witness: the layout theorem applied to the concrete registry with
namespace "myns" and the example record. -/
theorem buildServiceKey_layout_witness :
    ({ nspace := "myns" } : EtcdRegistry).buildServiceKey "greeter" "10.0.0.5" 9090 =
      "myns" ++ "/services/" ++ "greeter" ++ "/" ++ "10.0.0.5" ++ ":" ++ decStr 9090 :=
  ((buildServiceKey_layout { nspace := "myns" } (by decide)).1
    "greeter" "10.0.0.5" 9090 (by decide) (by decide)).1

/-- One key/value pair in the modelled etcd store together with its
attached lease (0 = no lease).  Values written by Register are
JSON-serialized ServiceInfo records; json.Marshal/Unmarshal round-trips
this flat struct, so the store holds the record structurally. -/
structure EtcdKV where
  key : String
  value : ServiceInfo
  lease : Nat
deriving DecidableEq, Repr

/-- The modelled etcd backend: current key/value pairs plus a counter
producing fresh lease identifiers (etcd lease IDs are nonzero). -/
structure EtcdStore where
  kvs : List EtcdKV
  nextLease : Nat := 1
deriving DecidableEq, Repr

/-- Register from pkg/discovery/etcd.go: grant a lease, store its ID in
the single leaseID field of the registry (overwriting the previous value),
then put the serialized record at buildServiceKey under that lease.  The
keep-alive goroutine only logs renewals and is not modelled; the backend
is taken as reachable, so the error returns do not arise. -/
def EtcdRegistry.Register (r : EtcdRegistry) (st : EtcdStore) (service : ServiceInfo) :
    EtcdRegistry × EtcdStore :=
  let lid := st.nextLease
  let key := r.buildServiceKey service.name service.address service.port
  ({ r with leaseID := lid },
   { kvs := st.kvs.filter (fun kv => ¬ kv.key = key) ++ [⟨key, service, lid⟩],
     nextLease := lid + 1 })

/-- Deregister from pkg/discovery/etcd.go: if a lease ID is stored,
revoke that lease (etcd then deletes every key attached to it), then
delete the record key built from the given service. -/
def EtcdRegistry.Deregister (r : EtcdRegistry) (st : EtcdStore) (service : ServiceInfo) :
    EtcdStore :=
  let st1 :=
    if r.leaseID ≠ 0 then
      { st with kvs := st.kvs.filter (fun kv => ¬ kv.lease = r.leaseID) }
    else st
  let key := r.buildServiceKey service.name service.address service.port
  { st1 with kvs := st1.kvs.filter (fun kv => ¬ kv.key = key) }

/-- Discover from pkg/discovery/etcd.go: a prefix query over the store
returning the stored records.  the byte-order key sorting of etcd is
abstracted to the list order of the store, and unmarshal failures cannot
arise because values are stored structurally. -/
def EtcdRegistry.Discover (r : EtcdRegistry) (st : EtcdStore) (serviceName : String) :
    List ServiceInfo :=
  (st.kvs.filter
      (fun kv => (r.buildServicePfx serviceName).data.isPrefixOf kv.key.data)).map
    EtcdKV.value

/-- One iteration of the etcd watch goroutine (etcd.go lines 169-190):
the watch response either carries an error, or triggers a re-Discover
whose outcome is a failure (none) or a fresh snapshot (some). -/
structure EtcdIter where
  respErr : Bool
  disc : Option (List ServiceInfo)
deriving DecidableEq, Repr

/-- The etcd watch goroutine over a finite trace of iterations: the
emitted snapshots, and whether the loop returned early on a
watch-response error (true) instead of running until the watch channel
closed on caller cancellation (false). -/
def etcdWatchLoop : List EtcdIter → List (List ServiceInfo) × Bool
  | [] => ([], false)
  | it :: rest =>
    if it.respErr then ([], true)
    else
      match it.disc with
      | none => etcdWatchLoop rest
      | some svcs =>
        let r := etcdWatchLoop rest
        (svcs :: r.1, r.2)

/-- Watch from pkg/discovery/etcd.go: the initial Discover result is
sent into the (buffered) channel before the watch goroutine starts, so
it is the first delivered snapshot. -/
def EtcdRegistry.Watch (r : EtcdRegistry) (st : EtcdStore) (serviceName : String)
    (iters : List EtcdIter) : List (List ServiceInfo) × Bool :=
  let rest := etcdWatchLoop iters
  (r.Discover st serviceName :: rest.1, rest.2)

/-- The fields of a consul catalog entry (api.AgentService) read by
Discover and the watch loop. -/
structure AgentService where
  service : String
  address : String
  port : Nat
  meta : List (String × String) := []
deriving DecidableEq, Repr

/-- The ServiceInfo built from one consul health entry
(consul.go Discover and Watch build identical records). -/
def consulToServiceInfo (e : AgentService) : ServiceInfo :=
  { name := e.service, address := e.address, port := e.port, metadata := e.meta }

/-- Discover from pkg/discovery/consul.go, over a health-query function
standing for client.Health().Service(name, "", true, nil). -/
def ConsulRegistry.Discover (health : String → Except String (List AgentService))
    (serviceName : String) : Except String (List ServiceInfo) :=
  match health serviceName with
  | .error e => .error ("failed to discover services: " ++ e)
  | .ok entries => .ok (entries.map consulToServiceInfo)

/-- One iteration of the consul watch goroutine (consul.go lines
118-161): a blocking query either fails (none: the loop logs, sleeps 5
seconds and continues) or returns the current entries. -/
structure ConsulIter where
  poll : Option (List AgentService)
deriving DecidableEq, Repr

/-- The consul watch goroutine over a finite trace of iterations; the
Bool records whether the loop terminated other than by caller
cancellation (it cannot: every error path continues). -/
def consulWatchLoop : List ConsulIter → List (List ServiceInfo) × Bool
  | [] => ([], false)
  | it :: rest =>
    match it.poll with
    | none => consulWatchLoop rest
    | some entries =>
      let r := consulWatchLoop rest
      (entries.map consulToServiceInfo :: r.1, r.2)

/-- Watch from pkg/discovery/consul.go: the Discover result at subscribe
time goes into the buffered channel first, then the polling goroutine
runs. -/
def ConsulRegistry.Watch (health : String → Except String (List AgentService))
    (serviceName : String) (iters : List ConsulIter) :
    Except String (List (List ServiceInfo) × Bool) :=
  match ConsulRegistry.Discover health serviceName with
  | .error e => .error e
  | .ok l =>
    let rest := consulWatchLoop iters
    .ok (l :: rest.1, rest.2)

/-- The RegisteredSet key from the ServiceManager:
fmt.Sprintf("%s:%s:%d", name, address, port). -/
def smKey (service : ServiceInfo) : String :=
  service.name ++ ":" ++ service.address ++ ":" ++ decStr service.port

/-- ServiceManager from the discovery package: the process-local
RegisteredSet (a Go map keyed by smKey).  The wrapped Registry is passed
to each operation as an outcome function (none = the delegated backend
call succeeded, some msg = it returned an error). -/
structure ServiceManager where
  services : List (String × ServiceInfo) := []
deriving DecidableEq, Repr

/-- RegisterService: delegate to Registry.Register; only on success add
the record to the RegisteredSet. -/
def ServiceManager.RegisterService (register : ServiceInfo → Option String)
    (sm : ServiceManager) (service : ServiceInfo) : Option String × ServiceManager :=
  match register service with
  | some e => (some e, sm)
  | none => (none, { services := mapInsert sm.services (smKey service) service })

/-- DeregisterService: delegate to Registry.Deregister; an error returns
immediately, before the delete from the RegisteredSet. -/
def ServiceManager.DeregisterService (deregister : ServiceInfo → Option String)
    (sm : ServiceManager) (service : ServiceInfo) : Option String × ServiceManager :=
  match deregister service with
  | some e => (some e, sm)
  | none => (none, { services := mapErase sm.services (smKey service) })

/-- DeregisterAll: call Deregister on every member, logging (third
component) instead of aborting on individual failures, then reset the
set to a fresh empty map and return nil. -/
def ServiceManager.DeregisterAll (deregister : ServiceInfo → Option String)
    (sm : ServiceManager) : Option String × ServiceManager × List String :=
  let logs := sm.services.filterMap fun kv =>
    (deregister kv.2).map fun _ => "Failed to deregister service " ++ kv.2.name
  (none, { services := [] }, logs)

/-- A gRPC client connection as produced by grpc.DialContext: a creation
serial number plus the target string it was dialed with. -/
structure Conn where
  id : Nat
  target : String
deriving DecidableEq, Repr

/-- discoveryResolverBuilder from pkg/client/resolver.go: carries the
service name captured when the builder was created.  The registry and
logger fields do not influence the routing done by Build and are omitted. -/
structure DiscoveryResolverBuilder where
  serviceName : String
deriving DecidableEq, Repr

/-- discoveryResolver as produced by Build (the cc, ctx and cancel
fields belong to the unmodelled RPC plumbing). -/
structure DiscoveryResolver where
  serviceName : String
deriving DecidableEq, Repr

/-- Build from pkg/client/resolver.go: the resolver watches
b.serviceName; the target argument of the connection is never read. -/
def DiscoveryResolverBuilder.Build (b : DiscoveryResolverBuilder)
    (targetEndpoint : String) : DiscoveryResolver :=
  { serviceName := b.serviceName }

/-- Scheme from pkg/client/resolver.go. -/
def DiscoveryResolverBuilder.Scheme (_ : DiscoveryResolverBuilder) : String :=
  "discovery"

/-- The Registry interface as consumed by the client factory: the
Discover query (the only registry method on the GetClient path). -/
structure RegistryModel where
  discover : String → Except String (List ServiceInfo)

/-- Mutable state outside the factory: the global scheme-to-builder
resolver map (resolver.Register overwrites per scheme), the environment
deciding whether dialing a target fails, a dial counter and the serial
for created connections. -/
structure World where
  resolvers : List (String × DiscoveryResolverBuilder) := []
  dialErr : String → Option String
  dials : Nat := 0
  nextConnId : Nat := 0

/-- Outcome of a Go call across the public API boundary: a value, an
ordinary error value, or a runtime panic. -/
inductive GoOutcome (α : Type) where
  | ok (a : α)
  | err (msg : String)
  | panicked (msg : String)
deriving DecidableEq, Repr

/-- ClientFactory from pkg/client/factory.go: the optional registry and
the connection cache.  Config fields (message size ceilings, keepalive,
interceptors, the service-config blob) only shape dial options and do
not affect the cache or discovery control flow; they are not modelled. -/
structure ClientFactory where
  registry : Option RegistryModel
  clients : List (String × Conn) := []

/-- registerResolver from pkg/client/factory.go: build a
discoveryResolverBuilder capturing serviceName and resolver.Register it,
which keys the global map by the Scheme of the builder and overwrites the
previous "discovery" entry. -/
def registerResolver (w : World) (serviceName : String) : World :=
  let builder : DiscoveryResolverBuilder := { serviceName := serviceName }
  { w with resolvers := mapInsert w.resolvers builder.Scheme builder }

/-- createConnection from pkg/client/factory.go.  Its first step calls
f.registry.Discover: when the factory was built without a registry this
is a method call on a nil interface and panics; the nil check that
selects the plain host:port target sits after the existence check and is
unreachable in that case.  On the reachable path the target is the
discovery scheme URI, the resolver is registered before dialing, and the
dial result decides the outcome. -/
def ClientFactory.createConnection (f : ClientFactory) (w : World) (serviceName : String) :
    GoOutcome Conn × World :=
  match f.registry with
  | none => (.panicked "invalid memory address or nil pointer dereference", w)
  | some reg =>
    match reg.discover serviceName with
    | .error e => (.err ("failed to discover service " ++ serviceName ++ ": " ++ e), w)
    | .ok services =>
      if services.length = 0 then
        (.err ("service " ++ serviceName ++ " not found"), w)
      else
        let target := "discovery:///" ++ serviceName
        let w1 := registerResolver w serviceName
        let w2 := { w1 with dials := w1.dials + 1 }
        match w2.dialErr target with
        | some e => (.err ("failed to dial " ++ serviceName ++ ": " ++ e), w2)
        | none =>
          (.ok { id := w2.nextConnId, target := target },
           { w2 with nextConnId := w2.nextConnId + 1 })

/-- GetClient from pkg/client/factory.go: read-locked lookup, then
write-locked double-check, then createConnection and cache insert.  In
this sequential embedding both lookups read the same cache state. -/
def ClientFactory.GetClient (f : ClientFactory) (w : World) (serviceName : String) :
    GoOutcome Conn × ClientFactory × World :=
  match mapLookup f.clients serviceName with
  | some conn => (.ok conn, f, w)
  | none =>
    match mapLookup f.clients serviceName with
    | some conn => (.ok conn, f, w)
    | none =>
      match f.createConnection w serviceName with
      | (.ok conn, w') =>
        (.ok conn, { f with clients := mapInsert f.clients serviceName conn }, w')
      | (.err e, w') => (.err e, f, w')
      | (.panicked m, w') => (.panicked m, f, w')

/-- Close from pkg/client/factory.go: close every cached connection,
logging (third component) instead of propagating failures, then replace
the cache with a fresh empty map and return nil. -/
def ClientFactory.Close (closeErr : Conn → Option String) (f : ClientFactory) :
    Option String × ClientFactory × List String :=
  let logs := f.clients.filterMap fun kv =>
    (closeErr kv.2).map fun _ => "Failed to close client connection: " ++ kv.1
  (none, { f with clients := [] }, logs)

/-- C9: the registry stores a single lease identifier which every
Register overwrites, and Deregister revokes that most-recently-granted
lease: after Register(s1) then Register(s2), Deregister(s1) leaves no
key holding the lease of s2 and no key for either record, so the key of s2 expires
even though only s1 was deregistered. -/
theorem etcd_deregister_revokes_latest_lease (r : EtcdRegistry) (st : EtcdStore)
    (s1 s2 : ServiceInfo) :
    (r.Register st s1).1.leaseID = st.nextLease ∧
    ((r.Register st s1).1.Register (r.Register st s1).2 s2).1.leaseID = st.nextLease + 1 ∧
    (∀ kv ∈ (((r.Register st s1).1.Register (r.Register st s1).2 s2).1.Deregister
        ((r.Register st s1).1.Register (r.Register st s1).2 s2).2 s1).kvs,
      ¬ kv.lease = st.nextLease + 1 ∧
      ¬ kv.key = r.buildServiceKey s2.name s2.address s2.port ∧
      ¬ kv.key = r.buildServiceKey s1.name s1.address s1.port) := by
  refine ⟨rfl, rfl, ?_⟩
  intro kv hkv
  have h3 := List.mem_filter.mp hkv
  have h4 := List.mem_filter.mp h3.1
  have hlease : ¬ kv.lease = st.nextLease + 1 := by simpa using h4.2
  have hkey1 : ¬ kv.key = r.buildServiceKey s1.name s1.address s1.port := by
    simpa [EtcdRegistry.buildServiceKey] using h3.2
  refine ⟨hlease, ?_, hkey1⟩
  rcases List.mem_append.mp h4.1 with hm | hm
  · have hfl := (List.mem_filter.mp hm).2
    simpa [EtcdRegistry.buildServiceKey] using hfl
  · exfalso
    exact hlease (by rw [List.mem_singleton.mp hm]; rfl)

/-- C1 counterexample: a watch-response error in the etcd watch loop
terminates the loop without any caller cancellation (second component
true), dropping the snapshot of the following iteration instead of
retrying. -/
theorem etcdWatchLoop_error_closes :
    etcdWatchLoop
        [{ respErr := true, disc := none },
         { respErr := false, disc := some [{ name := "greeter", address := "10.0.0.5",
                                             port := 9090 }] }] =
      ([], true) := rfl

/-- C1 (amended): the catalog/consul watch loop recovers from every
failed iteration (logged, bounded 5s delay, retry) and never terminates
except on caller cancellation; the lease-store/etcd loop recovers from a
failed re-Discover after a change event, but a watch-response error
terminates it, closing the stream. -/
theorem watch_error_recovery :
    (∀ iters, (consulWatchLoop iters).2 = false) ∧
    (∀ (it : ConsulIter) rest, it.poll = none →
      consulWatchLoop (it :: rest) = consulWatchLoop rest) ∧
    (∀ (it : EtcdIter) rest, it.respErr = false → it.disc = none →
      etcdWatchLoop (it :: rest) = etcdWatchLoop rest) ∧
    (∀ (it : EtcdIter) rest, it.respErr = true →
      etcdWatchLoop (it :: rest) = ([], true)) := by
  refine ⟨?_, ?_, ?_, ?_⟩
  · intro iters
    induction iters with
    | nil => rfl
    | cons it rest ih =>
      match it with
      | { poll := none } => simpa [consulWatchLoop] using ih
      | { poll := some entries } => simpa [consulWatchLoop] using ih
  · intro it rest hp
    match it, hp with
    | { poll := none }, _ => rfl
  · intro it rest hr hd
    match it, hr, hd with
    | { respErr := false, disc := none }, _, _ => simp [etcdWatchLoop]
  · intro it rest hr
    match it, hr with
    | { respErr := true, disc := d }, _ => simp [etcdWatchLoop]

/-- C1 witness: the amended recovery behavior at concrete iteration
traces for both backends. -/
theorem watch_error_recovery_witness :
    consulWatchLoop [{ poll := none }] = consulWatchLoop [] ∧
    etcdWatchLoop [{ respErr := false, disc := none }] = etcdWatchLoop [] ∧
    etcdWatchLoop [{ respErr := true, disc := none }] = ([], true) :=
  ⟨watch_error_recovery.2.1 { poll := none } [] rfl,
   watch_error_recovery.2.2.1 { respErr := false, disc := none } [] rfl rfl,
   watch_error_recovery.2.2.2 { respErr := true, disc := none } [] rfl⟩

/-- C6: for both backends the first snapshot delivered by Watch is the
Discover result at subscribe time, independent of the later iterations
of the watch loop (no external change event is needed). -/
theorem watch_first_snapshot :
    (∀ (r : EtcdRegistry) (st : EtcdStore) (name : String) (iters : List EtcdIter),
      (r.Watch st name iters).1.head? = some (r.Discover st name)) ∧
    (∀ (health : String → Except String (List AgentService)) (name : String)
        (iters : List ConsulIter) (l : List AgentService), health name = .ok l →
      ConsulRegistry.Watch health name iters =
        .ok (l.map consulToServiceInfo :: (consulWatchLoop iters).1,
          (consulWatchLoop iters).2)) := by
  constructor
  · intro r st name iters
    rfl
  · intro health name iters l hl
    simp [ConsulRegistry.Watch, ConsulRegistry.Discover, hl]

/-- C6 witness: the first snapshot at concrete stores holding two
registered greeter instances, with no watch iterations at all. -/
theorem watch_first_snapshot_witness :
    (({ nspace := "myns" } : EtcdRegistry).Watch
        { kvs := [⟨"myns/services/greeter/10.0.0.5:9090",
                    { name := "greeter", address := "10.0.0.5", port := 9090 }, 1⟩,
                  ⟨"myns/services/greeter/10.0.0.5:9091",
                    { name := "greeter", address := "10.0.0.5", port := 9091 }, 2⟩],
          nextLease := 3 } "greeter" []).1.head? =
      some [{ name := "greeter", address := "10.0.0.5", port := 9090 },
            { name := "greeter", address := "10.0.0.5", port := 9091 }] ∧
    ConsulRegistry.Watch
        (fun _ => .ok [{ service := "greeter", address := "10.0.0.5", port := 9090 }])
        "greeter" [] =
      .ok ([[{ name := "greeter", address := "10.0.0.5", port := 9090 }]], false) := by
  constructor
  · have h := watch_first_snapshot.1 { nspace := "myns" }
      { kvs := [⟨"myns/services/greeter/10.0.0.5:9090",
                  { name := "greeter", address := "10.0.0.5", port := 9090 }, 1⟩,
                ⟨"myns/services/greeter/10.0.0.5:9091",
                  { name := "greeter", address := "10.0.0.5", port := 9091 }, 2⟩],
        nextLease := 3 } "greeter" []
    rw [h]
    decide
  · exact watch_first_snapshot.2
      (fun _ => .ok [{ service := "greeter", address := "10.0.0.5", port := 9090 }])
      "greeter" [] [{ service := "greeter", address := "10.0.0.5", port := 9090 }] rfl

theorem mapLookup_erase {α : Type} (m : List (String × α)) (k : String) :
    mapLookup (mapErase m k) k = none := by
  induction m with
  | nil => rfl
  | cons kv rest ih =>
    obtain ⟨k0, v0⟩ := kv
    by_cases hk : k0 = k
    · simpa [mapErase, List.filter_cons, hk] using ih
    · simpa [mapErase, mapLookup, List.filter_cons, hk] using ih


/-- Concrete example instance used by the concrete witnesses below. -/
def greeter : ServiceInfo := { name := "greeter", address := "10.0.0.5", port := 9090 }

/-- A second example instance of the same service on another port. -/
def greeter2 : ServiceInfo := { name := "greeter", address := "10.0.0.5", port := 9091 }

/-- A manager whose RegisteredSet holds exactly the greeter record. -/
def smOne : ServiceManager := { services := [(smKey greeter, greeter)] }

/-- A registry stub with one greeter instance for every name. -/
def regOne : RegistryModel := { discover := fun _ => .ok [greeter] }

/-- A registry stub that knows no instances at all. -/
def regEmpty : RegistryModel := { discover := fun _ => .ok [] }

/-- A fresh world in which every dial succeeds. -/
def wOk : World := { dialErr := fun _ => none }

/-- A factory configured with the one-greeter registry and an empty cache. -/
def fGreeter : ClientFactory := { registry := some regOne, clients := [] }

/-- The connection the first GetClient on fGreeter/wOk creates. -/
def connGreeter : Conn := { id := 0, target := "discovery:///greeter" }

/-- The factory cache state after that first GetClient. -/
def fGreeter1 : ClientFactory :=
  { registry := some regOne, clients := [("greeter", connGreeter)] }

/-- The world state after that first GetClient: resolver registered for
greeter, one dial performed, one connection created. -/
def wGreeter1 : World :=
  { resolvers := [("discovery", { serviceName := "greeter" })],
    dialErr := fun _ => none, dials := 1, nextConnId := 1 }

/-- C3 counterexample: a backend Deregister failure makes
DeregisterService return the error before the delete statement runs, so
the record is still in the RegisteredSet. -/
theorem deregisterService_failure_keeps_record :
    (ServiceManager.DeregisterService (fun _ => some "backend unreachable")
        smOne greeter).1 = some "backend unreachable" ∧
    mapLookup (ServiceManager.DeregisterService (fun _ => some "backend unreachable")
        smOne greeter).2.services (smKey greeter) = some greeter := by
  constructor
  · rfl
  · decide

/-- C3 (amended): DeregisterService removes the record from the
RegisteredSet exactly when the delegated Registry.Deregister succeeds;
on a backend failure it returns the error and leaves the set unchanged
(unconditional cleanup is the job of DeregisterAll, not of this method). -/
theorem deregisterService_removes_on_success
    (deregister : ServiceInfo → Option String) (sm : ServiceManager) (s : ServiceInfo) :
    (deregister s = none →
      ServiceManager.DeregisterService deregister sm s =
          (none, { services := mapErase sm.services (smKey s) }) ∧
        mapLookup (ServiceManager.DeregisterService deregister sm s).2.services
          (smKey s) = none) ∧
    (∀ e, deregister s = some e →
      ServiceManager.DeregisterService deregister sm s = (some e, sm)) := by
  constructor
  · intro h
    constructor
    · simp [ServiceManager.DeregisterService, h]
    · simp only [ServiceManager.DeregisterService, h]
      exact mapLookup_erase sm.services (smKey s)
  · intro e h
    simp [ServiceManager.DeregisterService, h]

/-- C3 witness: the amended behavior at a concrete one-record manager,
for a succeeding backend and for a failing backend. -/
theorem deregisterService_removes_on_success_witness :
    (ServiceManager.DeregisterService (fun _ => none) smOne greeter =
        (none, { services := mapErase smOne.services (smKey greeter) }) ∧
      mapLookup (ServiceManager.DeregisterService (fun _ => none) smOne
          greeter).2.services (smKey greeter) = none) ∧
    ServiceManager.DeregisterService (fun _ => some "backend unreachable")
        ({ services := [] } : ServiceManager) greeter =
      (some "backend unreachable", { services := [] }) :=
  ⟨(deregisterService_removes_on_success (fun _ => none) smOne greeter).1 rfl,
   (deregisterService_removes_on_success (fun _ => some "backend unreachable")
      { services := [] } greeter).2 "backend unreachable" rfl⟩

/-- C7: shutdown is total: DeregisterAll always returns nil and clears
the RegisteredSet, and ClientFactory.Close always returns nil and
empties the cache, regardless of how many delegated deregistrations or
connection closes failed (failures only produce log entries). -/
theorem shutdown_total :
    (∀ (deregister : ServiceInfo → Option String) (sm : ServiceManager),
      (ServiceManager.DeregisterAll deregister sm).1 = none ∧
      (ServiceManager.DeregisterAll deregister sm).2.1.services = []) ∧
    (∀ (closeErr : Conn → Option String) (f : ClientFactory),
      (ClientFactory.Close closeErr f).1 = none ∧
      (ClientFactory.Close closeErr f).2.1.clients = []) :=
  ⟨fun _ _ => ⟨rfl, rfl⟩, fun _ _ => ⟨rfl, rfl⟩⟩

/-- C2: evaluating GetClient at the failing input.  A factory without a
Registry (as Application.initialize builds one when Discovery.Type is
empty) panics on the nil-interface Discover call at the top of
createConnection, before reaching the branch that would use the literal
host:port name as the dial target. -/
theorem getClient_nil_registry_panics :
    (ClientFactory.GetClient { registry := none, clients := [] } wOk
        "localhost:9090").1 =
      .panicked "invalid memory address or nil pointer dereference" := rfl

/-- C4: when Discover of the configured registry returns an empty
instance list and the name is not cached, GetClient returns the
"service ... not found" error and no connection, leaving the cache, the
resolver map and the dial counter untouched. -/
theorem getClient_not_found (f : ClientFactory) (w : World) (name : String)
    (reg : RegistryModel) (hreg : f.registry = some reg)
    (hdisc : reg.discover name = .ok []) (hmiss : mapLookup f.clients name = none) :
    ClientFactory.GetClient f w name =
      (.err ("service " ++ name ++ " not found"), f, w) := by
  simp only [ClientFactory.GetClient, hmiss, ClientFactory.createConnection, hreg, hdisc,
    List.length_nil]
  rfl

/-- C4 witness: a registry with zero instances for "unknown-svc" makes
GetClient fail with the not-found error and change nothing. -/
theorem getClient_not_found_witness :
    ClientFactory.GetClient { registry := some regEmpty, clients := [] } wOk
        "unknown-svc" =
      (.err ("service " ++ "unknown-svc" ++ " not found"),
       { registry := some regEmpty, clients := [] }, wOk) :=
  getClient_not_found { registry := some regEmpty, clients := [] } wOk
    "unknown-svc" regEmpty rfl rfl rfl

/-- C5: once a GetClient call for a name has succeeded, every subsequent
GetClient for that name returns the identical cached connection and
leaves the factory and the world (including the dial counter) unchanged:
at most one live connection, and exactly one creation, per cache key. -/
theorem getClient_singleton (f : ClientFactory) (w : World) (name : String)
    (conn : Conn) (f' : ClientFactory) (w' : World)
    (h : ClientFactory.GetClient f w name = (.ok conn, f', w')) :
    ClientFactory.GetClient f' w' name = (.ok conn, f', w') := by
  have hcache : mapLookup f'.clients name = some conn := by
    rcases hm : mapLookup f.clients name with _ | c
    · rcases hc : f.createConnection w name with ⟨o, w''⟩
      cases o with
      | ok c'' =>
        have h' : ClientFactory.GetClient f w name =
            (.ok c'', { f with clients := mapInsert f.clients name c'' }, w'') := by
          simp only [ClientFactory.GetClient, hm, hc]
        rw [h'] at h
        simp only [Prod.mk.injEq] at h
        obtain ⟨h1, h2, h3⟩ := h
        have hcc : c'' = conn := GoOutcome.ok.inj h1
        rw [← h2]
        show mapLookup (mapInsert f.clients name c'') name = some conn
        rw [mapLookup_insert, hcc]
      | err e =>
        have h' : ClientFactory.GetClient f w name = (.err e, f, w'') := by
          simp only [ClientFactory.GetClient, hm, hc]
        rw [h'] at h
        simp at h
      | panicked msg =>
        have h' : ClientFactory.GetClient f w name = (.panicked msg, f, w'') := by
          simp only [ClientFactory.GetClient, hm, hc]
        rw [h'] at h
        simp at h
    · have h' : ClientFactory.GetClient f w name = (.ok c, f, w) := by
        simp only [ClientFactory.GetClient, hm]
      rw [h'] at h
      simp only [Prod.mk.injEq] at h
      obtain ⟨h1, h2, h3⟩ := h
      rw [← h2, hm, GoOutcome.ok.inj h1]
  simp only [ClientFactory.GetClient, hcache]

/-- C5 witness: after the first GetClient on a fresh factory creates and
caches the greeter connection, the second call returns the identical
connection with no state change and no further dial. -/
theorem getClient_singleton_witness :
    ClientFactory.GetClient fGreeter1 wGreeter1 "greeter" =
      (.ok connGreeter, fGreeter1, wGreeter1) :=
  getClient_singleton fGreeter wOk "greeter" connGreeter fGreeter1 wGreeter1 rfl

/-- C10: the discovery resolver builder resolves the serviceName it
captured at creation, never the name in the connection target; every
cache-miss creation registers a fresh builder under the single
"discovery" scheme, overwriting the previously registered one. -/
theorem resolver_scheme_overwrite :
    (∀ (b : DiscoveryResolverBuilder) (t1 t2 : String),
      b.Build t1 = { serviceName := b.serviceName } ∧ b.Build t1 = b.Build t2) ∧
    (∀ (w : World) (name : String),
      mapLookup (registerResolver w name).resolvers "discovery" =
        some { serviceName := name }) ∧
    (∀ (f : ClientFactory) (w : World) (name : String) (conn : Conn) (w' : World),
      f.createConnection w name = (.ok conn, w') →
      mapLookup w'.resolvers "discovery" = some { serviceName := name }) := by
  refine ⟨fun b t1 t2 => ⟨rfl, rfl⟩, fun w name => mapLookup_insert _ _ _, ?_⟩
  intro f w name conn w' h
  rcases hr : f.registry with _ | reg
  · rw [show f.createConnection w name =
        (.panicked "invalid memory address or nil pointer dereference", w) by
      simp only [ClientFactory.createConnection, hr]] at h
    simp at h
  · rcases hd : reg.discover name with e | services
    · rw [show f.createConnection w name =
          (.err ("failed to discover service " ++ name ++ ": " ++ e), w) by
        simp only [ClientFactory.createConnection, hr, hd]] at h
      simp at h
    · by_cases hlen : services.length = 0
      · rw [show f.createConnection w name =
            (.err ("service " ++ name ++ " not found"), w) by
          simp only [ClientFactory.createConnection, hr, hd]
          rw [if_pos hlen]] at h
        simp at h
      · rcases hdial : w.dialErr ("discovery:///" ++ name) with _ | e
        · rw [show f.createConnection w name =
              (.ok { id := w.nextConnId, target := "discovery:///" ++ name },
               { w with
                  resolvers := mapInsert w.resolvers "discovery"
                    ({ serviceName := name } : DiscoveryResolverBuilder),
                  dials := w.dials + 1,
                  nextConnId := w.nextConnId + 1 }) by
            simp only [ClientFactory.createConnection, hr, hd]
            rw [if_neg hlen]
            simp only [registerResolver, DiscoveryResolverBuilder.Scheme, hdial]] at h
          simp only [Prod.mk.injEq] at h
          rw [← h.2]
          exact mapLookup_insert _ _ _
        · rw [show f.createConnection w name =
              (.err ("failed to dial " ++ name ++ ": " ++ e),
               { w with
                  resolvers := mapInsert w.resolvers "discovery"
                    ({ serviceName := name } : DiscoveryResolverBuilder),
                  dials := w.dials + 1 }) by
            simp only [ClientFactory.createConnection, hr, hd]
            rw [if_neg hlen]
            simp only [registerResolver, DiscoveryResolverBuilder.Scheme, hdial]] at h
          simp at h

/-- C10 witness: at a concrete world where the builder for "svc-a" is
installed, a creation for "greeter" replaces it under the "discovery"
scheme. -/
theorem resolver_scheme_overwrite_witness :
    mapLookup (ClientFactory.createConnection fGreeter
        { resolvers := [("discovery", { serviceName := "svc-a" })],
          dialErr := fun _ => none } "greeter").2.resolvers "discovery" =
      some { serviceName := "greeter" } :=
  resolver_scheme_overwrite.2.2 fGreeter
    { resolvers := [("discovery", { serviceName := "svc-a" })],
      dialErr := fun _ => none } "greeter" connGreeter
    { resolvers := [("discovery", { serviceName := "greeter" })],
      dialErr := fun _ => none, dials := 1, nextConnId := 1 } rfl

end GrpcKit
